import Mathlib

/-!
Verification of the phase-noise conditioning pipeline: the filter engine
(`Utils::movingAverage`, `Utils::medianFilter`, `Utils::savitzkyGolay`), the
interpolation primitive (`Utils::linearInterpolate`), the two-pass spur
detector/remover (`PhaseNoiseAnalyzerApp::applySpurRemoval`) and the
spot-noise extractor (`PhaseNoiseAnalyzerApp::calculateSpotNoise`).

Modelling conventions:
* `double` values are modelled as exact rationals (`ℚ`); the spot-noise
  extractor, whose comparisons go through the natural logarithm, is modelled
  over `ℝ` with `Real.log`.  NaN is not representable in `ℚ`: the model covers
  NaN-free channels, on which the source's `std::isnan` guards are identically
  false, so they are dropped from the embedded conditions.
* C++ `int` parameters are modelled as `ℤ`.  The C++ tests `w % 2 == 0` and
  Lean's `w % 2 = 0` agree for every `ℤ` (both characterise evenness), and the
  divisions `w / 2` are only reached for positive `w`, where C++ and Lean
  division agree.
* Index-stepping `while` loops are modelled by structural recursion on a fuel
  argument; every call site passes a fuel that is exactly (or provably at
  least) the number of remaining iterations of the source loop, so the
  fuel-exhausted branch is unreachable and the function computes precisely the
  loop's result, while staying kernel-reducible for concrete inputs.
-/

namespace PNA

/-- Machine epsilon of IEEE-754 double, `std::numeric_limits<double>::epsilon()`,
as an exact rational. -/
def dblEps : ℚ := 1 / 2 ^ 52

/-- The literal `1e-9` used as the minimal anchor-frequency separation in
`applySpurRemoval`. -/
def freqEps : ℚ := 1 / 1000000000

/-- `Constants::SPUR_THRESHOLD` (src/constants.h line 37). -/
def SPUR_THRESHOLD : ℚ := 5

/-- `Constants::DEFAULT_SPUR_WINDOW_SIZE` (src/constants.h line 38). -/
def DEFAULT_SPUR_WINDOW_SIZE : ℤ := 21

/-- `Utils::linearInterpolate` (src/utils.cpp lines 196-201): linear
interpolation with a guard returning the left anchor when the x-anchors are
closer than machine epsilon. -/
def linearInterpolate (x1 y1 x2 y2 x : ℚ) : ℚ :=
  if |x2 - x1| < dblEps then y1
  else y1 + (y2 - y1) * (x - x1) / (x2 - x1)

/-- The window-size oddification every filter starts with:
`if (windowSize % 2 == 0) windowSize++;`. -/
def oddify (w : ℤ) : ℤ := if w % 2 = 0 then w + 1 else w

/-- The bounds-clipped window `movingAverage` collects around index `i`
(src/utils.cpp lines 87-94): offsets `j ∈ [-half, half]` with out-of-range
indices skipped. -/
def maWindow (data : List ℚ) (i half : ℕ) : List ℚ :=
  (List.range (2 * half + 1)).filterMap (fun k =>
    let idx : ℤ := (i : ℤ) + (k : ℤ) - (half : ℤ)
    if 0 ≤ idx ∧ idx < (data.length : ℤ) then some (data.getD idx.toNat 0) else none)

/-- `Utils::movingAverage` (src/utils.cpp lines 75-102): edge-truncated mean
over a window of oddified size; identity when the oddified window is < 3 or
the data is empty. -/
def movingAverage (data : List ℚ) (windowSize : ℤ) : List ℚ :=
  let w := oddify windowSize
  if w < 3 ∨ data.isEmpty then data
  else
    let half := (w / 2).toNat
    (List.range data.length).map (fun i =>
      let win := maWindow data i half
      if 0 < win.length then win.sum / (win.length : ℚ) else data.getD i 0)

/-- Index clamping `std::max(0, std::min(n - 1, index))` used by
`medianFilter` (src/utils.cpp line 118). -/
def clampIdx (n : ℕ) (idx : ℤ) : ℕ := (max 0 (min ((n : ℤ) - 1) idx)).toNat

/-- The edge-clamped window `medianFilter` collects around index `i`
(src/utils.cpp lines 114-121). -/
def medWindow (data : List ℚ) (i half : ℕ) : List ℚ :=
  (List.range (2 * half + 1)).map (fun k =>
    data.getD (clampIdx data.length ((i : ℤ) + (k : ℤ) - (half : ℤ))) 0)

/-- `Utils::medianFilter` (src/utils.cpp lines 105-127): per-index sorted
window, middle element taken; identity when the oddified window is < 3 or the
data is empty.  `std::sort` is modelled by `insertionSort`, which produces the
same list (sorting by `≤` on `ℚ` has a unique result). -/
def medianFilter (data : List ℚ) (windowSize : ℤ) : List ℚ :=
  let w := oddify windowSize
  if w < 3 ∨ data.isEmpty then data
  else
    let half := (w / 2).toNat
    (List.range data.length).map (fun i =>
      let win := (medWindow data i half).insertionSort (· ≤ ·)
      win.getD (win.length / 2) 0)

/-- `Utils::rollingMedian` (src/utils.cpp lines 130-134): delegates to
`medianFilter`. -/
def rollingMedian (data : List ℚ) (windowSize : ℤ) : List ℚ :=
  medianFilter data windowSize

/-- Savitzky-Golay coefficients for window 5 (src/utils.cpp line 152). -/
def coeffs5 : List ℚ := [-3, 12, 17, 12, -3]

/-- Savitzky-Golay coefficients for window 7 (src/utils.cpp line 154). -/
def coeffs7 : List ℚ := [-2, 3, 6, 7, 6, 3, -2]

/-- Savitzky-Golay coefficients for window 11 (src/utils.cpp line 156). -/
def coeffs11 : List ℚ := [-36, 9, 44, 69, 84, 89, 84, 69, 44, 9, -36]

/-- Reflected-then-clamped indexing of `savitzkyGolay`
(src/utils.cpp lines 177-182): `index < 0` reflects to `-index`,
`index >= n` reflects to `2*(n-1) - index`, then the result is clamped into
`[0, n-1]`. -/
def reflectIdx (n : ℕ) (i0 : ℤ) : ℕ :=
  let i1 := if i0 < 0 then -i0 else i0
  let i2 := if (n : ℤ) ≤ i1 then 2 * ((n : ℤ) - 1) - i1 else i1
  (max 0 (min ((n : ℤ) - 1) i2)).toNat

/-- The convolution `savitzkyGolay` computes at index `i`
(src/utils.cpp lines 174-186): kernel-weighted sum over reflected indices,
divided by the kernel's normalisation. -/
def sgConv (coeffs : List ℚ) (norm : ℚ) (half : ℕ) (data : List ℚ) (i : ℕ) : ℚ :=
  (((List.range (2 * half + 1)).map (fun k =>
    coeffs.getD k 0 *
      data.getD (reflectIdx data.length ((i : ℤ) + (k : ℤ) - (half : ℤ))) 0)).sum) / norm

/-- The kernel-selection chain of `savitzkyGolay` (src/utils.cpp lines
163-168): `(coefficients, normalisation, snapped window)` — note the source
reassigns `windowSize` to 11 in both `≥ 9` branches, so `halfWindow` is
computed from the snapped width.  `none` is the source's unreachable
`else { return data; }` fallback. -/
def sgSelect (w : ℤ) : Option (List ℚ × ℚ × ℤ) :=
  if w = 5 then some (coeffs5, 35, 5)
  else if w = 7 then some (coeffs7, 21, 7)
  else if 9 ≤ w ∧ w ≤ 15 then some (coeffs11, 429, 11)
  else if 15 < w then some (coeffs11, 429, 11)
  else none

/-- The convolve-then-copy-boundary body of `savitzkyGolay`
(src/utils.cpp lines 170-193): convolve every index with the selected
kernel, then overwrite the first and last `halfWindow` entries with the
input values. -/
def sgApply (data coeffs : List ℚ) (norm : ℚ) (w2 : ℤ) : List ℚ :=
  let half := (w2 / 2).toNat
  let smoothed := (List.range data.length).map (sgConv coeffs norm half data)
  (List.range data.length).map (fun i =>
    if i < half ∨ data.length - half ≤ i then data.getD i 0 else smoothed.getD i 0)

/-- `Utils::savitzkyGolay` (src/utils.cpp lines 140-194): oddify the window;
identity when the oddified window is < 5, `polyOrder >= windowSize`, or the
data is shorter than the oddified window; otherwise snap to one of the three
precomputed kernels and run the convolution with boundary copy-back. -/
def savitzkyGolay (data : List ℚ) (windowSize polyOrder : ℤ) : List ℚ :=
  let w := oddify windowSize
  if w < 5 ∨ w ≤ polyOrder ∨ (data.length : ℤ) < w then data
  else
    match sgSelect w with
    | none => data
    | some (coeffs, norm, w2) => sgApply data coeffs norm w2

/-- The spur marks of Pass 1 (src/phasenoiseanalyzerapp.cpp lines 1665-1671):
index `i` is a spur when `reference[i] - baseline[i] > threshold` (the
`isnan` guards of the source are identically false on the NaN-free model). -/
def mkIsSpur (ref baseline : List ℚ) (thr : ℚ) : List Bool :=
  (List.range ref.length).map (fun i => decide (ref.getD i 0 - baseline.getD i 0 > thr))

/-- The inner loop `while (i < N && isSpur[i]) i++;`
(src/phasenoiseanalyzerapp.cpp lines 1677-1679), by fuel recursion
(call sites pass fuel `≥ N - i`, making the fuel-0 branch unreachable). -/
def runEnd (isSpur : List Bool) (N : ℕ) : ℕ → ℕ → ℕ
  | 0, i => i
  | fuel + 1, i =>
    if i < N ∧ isSpur.getD i false then runEnd isSpur N fuel (i + 1) else i

/-- The left-anchor search `left = start - 1; while (left >= 0 && isSpur[left])
left--; if (left < 0) left = 0;` (src/phasenoiseanalyzerapp.cpp lines
1683-1685), with the C++ signed index `start - 1, start - 2, …` realised by
structural descent (argument `start`; the `0` case is the `left < 0` clamp). -/
def findLeft (isSpur : List Bool) : ℕ → ℕ
  | 0 => 0
  | k + 1 => if isSpur.getD k false then findLeft isSpur k else k

/-- The right-anchor search `right = end + 1; while (right < N && isSpur[right])
right++; if (right >= N) right = N - 1;` (src/phasenoiseanalyzerapp.cpp lines
1687-1689), by fuel recursion (fuel `≥ N - r` at call sites). -/
def findRight (isSpur : List Bool) (N : ℕ) : ℕ → ℕ → ℕ
  | 0, _ => N - 1
  | fuel + 1, r =>
    if r < N then (if isSpur.getD r false then findRight isSpur N fuel (r + 1) else r)
    else N - 1

/-- The Pass-1 segment fill (src/phasenoiseanalyzerapp.cpp lines 1698-1706):
for `cnt` indices starting at `j`, write the interpolated value when the
anchors are distinct and their frequencies differ by more than `1e-9`,
otherwise the left anchor value.  `cnt` is `end - start + 1` at the call
site. -/
def fillSeg (freq : List ℚ) (left right : ℕ) (lv rv : ℚ) : ℕ → ℕ → List ℚ → List ℚ
  | 0, _, meas => meas
  | cnt + 1, j, meas =>
    let v := if left < right ∧ |freq.getD right 0 - freq.getD left 0| > freqEps
      then linearInterpolate (freq.getD left 0) lv (freq.getD right 0) rv (freq.getD j 0)
      else lv
    fillSeg freq left right lv rv cnt (j + 1) (meas.set j v)

/-- Pass 1 of `applySpurRemoval` (src/phasenoiseanalyzerapp.cpp lines
1673-1711): scan left to right; on each maximal spur run, find the non-spur
anchors on both sides and overwrite the run in the working measured array.
Fuel recursion; the scan index advances by at least one per step, so fuel `N`
at the top-level call is never exhausted. -/
def pass1Go (freq : List ℚ) (isSpur : List Bool) (N : ℕ) : ℕ → List ℚ → ℕ → List ℚ
  | 0, meas, _ => meas
  | fuel + 1, meas, i =>
    if i < N then
      if isSpur.getD i false then
        let i2 := runEnd isSpur N (N - (i + 1)) (i + 1)
        let e := i2 - 1
        let left := findLeft isSpur i
        let right := findRight isSpur N (N - (e + 1)) (e + 1)
        let lv := meas.getD left 0
        let rv := meas.getD right 0
        pass1Go freq isSpur N fuel (fillSeg freq left right lv rv (e + 1 - i) i meas) i2
      else pass1Go freq isSpur N fuel meas (i + 1)
    else meas

/-- The falling-edge search of Pass 2 (src/phasenoiseanalyzerapp.cpp lines
1727-1734): first `j ≥ start + 1` with `reference[j-1] - reference[j] >
threshold`, or `N` when none exists.  Fuel recursion (fuel `= N - j` at the
call site). -/
def findFall (ref : List ℚ) (thr : ℚ) (N : ℕ) : ℕ → ℕ → ℕ
  | 0, j => j
  | fuel + 1, j =>
    if j < N then
      (if ref.getD (j - 1) 0 - ref.getD j 0 > thr then j else findFall ref thr N fuel (j + 1))
    else j

/-- The Pass-2 interpolation fill (src/phasenoiseanalyzerapp.cpp lines
1743-1749): `cnt` indices starting at `k` (the call site passes `j - start`
for the half-open range `[start, j)`). -/
def fillSeg2 (freq : List ℚ) (lf lv rf rv : ℚ) : ℕ → ℕ → List ℚ → List ℚ
  | 0, _, meas => meas
  | cnt + 1, k, meas =>
    let v := if |rf - lf| > freqEps then linearInterpolate lf lv rf rv (freq.getD k 0) else lv
    fillSeg2 freq lf lv rf rv cnt (k + 1) (meas.set k v)

/-- The Pass-2 forward fill on an unmatched rising edge
(src/phasenoiseanalyzerapp.cpp lines 1753-1756): `cnt` indices starting at
`k` all set to `v` (the call site passes `N - start` for the range
`[start, N)`). -/
def fillConst (v : ℚ) : ℕ → ℕ → List ℚ → List ℚ
  | 0, _, meas => meas
  | cnt + 1, k, meas => fillConst v cnt (k + 1) (meas.set k v)

/-- Pass 2 of `applySpurRemoval` (src/phasenoiseanalyzerapp.cpp lines
1718-1762): walk `i` from 1 while `i < N - 1`; on a rising edge
`reference[i] - reference[i-1] > threshold`, search for the first falling
edge `j`; if found, interpolate `[start, j)` between `start - 1` and `j` and
resume at `i = j`; if not found, forward-fill `[start, N)` with the value at
`start - 1` and stop.  The `isnan` guards are identically false on the
NaN-free model.  Fuel recursion; the index advances by at least one per
step, so fuel `N` at the top-level call is never exhausted. -/
def pass2Go (freq ref : List ℚ) (thr : ℚ) (N : ℕ) : ℕ → List ℚ → ℕ → List ℚ
  | 0, meas, _ => meas
  | fuel + 1, meas, i =>
    if i < N - 1 then
      if ref.getD i 0 - ref.getD (i - 1) 0 > thr then
        let j := findFall ref thr N (N - (i + 1)) (i + 1)
        if j < N then
          let lv := meas.getD (i - 1) 0
          let rv := meas.getD j 0
          let lf := freq.getD (i - 1) 0
          let rf := freq.getD j 0
          pass2Go freq ref thr N fuel (fillSeg2 freq lf lv rf rv (j - i) i meas) j
        else fillConst (meas.getD (i - 1) 0) (N - i) i meas
      else pass2Go freq ref thr N fuel meas (i + 1)
    else meas

/-- `Constants::FREQ_POINTS` (src/constants.h line 53): the nine decade target
frequencies of the spot-noise extractor. -/
def FREQ_POINTS : List ℝ := [0.1, 1, 10, 100, 1000, 10000, 100000, 1000000, 10000000]

/-- The logarithmic distance `|ln(sampleFreq) - ln(targetFreq)|` used by
`calculateSpotNoise` (src/phasenoiseanalyzerapp.cpp line 1820). -/
noncomputable def logDist (f t : ℝ) : ℝ := |Real.log f - Real.log t|

/-- One step of the closest-sample scan of `calculateSpotNoise`
(src/phasenoiseanalyzerapp.cpp lines 1818-1828): keep the running
`(minDist, closestFreq, closestNoise)` unless the current sample is strictly
closer.  The C++ initialisation `minDist = std::numeric_limits<double>::max()`
with `found = false` is modelled by `Option`: the first sample always
replaces the empty accumulator, as every finite log-distance passes the
`dist < DBL_MAX` test. -/
noncomputable def scanStep (t : ℝ) (acc : Option (ℝ × ℝ × ℝ)) (p : ℝ × ℝ) :
    Option (ℝ × ℝ × ℝ) :=
  match acc with
  | none => some (logDist p.1 t, p.1, p.2)
  | some (m, cf, cv) =>
    if logDist p.1 t < m then some (logDist p.1 t, p.1, p.2) else some (m, cf, cv)

/-- The full closest-sample scan over the measured curve
(src/phasenoiseanalyzerapp.cpp lines 1812-1828). -/
noncomputable def scanClosest (t : ℝ) (curve : List (ℝ × ℝ)) : Option (ℝ × ℝ × ℝ) :=
  curve.foldl (scanStep t) none

/-- The per-target body of `calculateSpotNoise`
(src/phasenoiseanalyzerapp.cpp lines 1803-1838): skip a target outside the
visible range; otherwise scan for the closest sample and accept it only when
its log-distance is below `ln(5.0)`. -/
noncomputable def spotNoisePoint (curve : List (ℝ × ℝ)) (xMin xMax t : ℝ) :
    Option (ℝ × ℝ) :=
  if t < xMin ∨ t > xMax then none
  else
    match scanClosest t curve with
    | none => none
    | some (_, cf, cv) =>
      if logDist cf t < Real.log 5 then some (cf, cv) else none

/-- `PhaseNoiseAnalyzerApp::calculateSpotNoise`
(src/phasenoiseanalyzerapp.cpp lines 1777-1841), keyed by the target
frequency itself (the source keys its map by the target's display label,
which is in bijection with the nine target frequencies). -/
noncomputable def calculateSpotNoise (curve : List (ℝ × ℝ)) (xMin xMax : ℝ) :
    List (ℝ × ℝ × ℝ) :=
  FREQ_POINTS.filterMap (fun tf =>
    (spotNoisePoint curve xMin xMax tf).map (fun p => (tf, p)))

/-- The per-dataset body of `PhaseNoiseAnalyzerApp::applySpurRemoval`
(src/phasenoiseanalyzerapp.cpp lines 1642-1765), with the caller-chosen
source channels (raw or already-filtered) passed as arguments: pass-through
when the dataset has no reference channel, the frequency axis is empty, or
`N < 3`; otherwise Pass 1 (baseline = rolling median of the reference,
threshold marking, run interpolation) followed by Pass 2 (edge detection) on
Pass 1's output.  In the source `thr` is `Constants::SPUR_THRESHOLD` and
`baselineWindow` is `Constants::DEFAULT_SPUR_WINDOW_SIZE`. -/
def removeSpurs (hasRef : Bool) (thr : ℚ) (baselineWindow : ℤ)
    (freq ref meas : List ℚ) : List ℚ :=
  if ¬hasRef ∨ freq.isEmpty then meas
  else
    let N := ref.length
    if N < 3 then meas
    else
      let baseline := rollingMedian ref baselineWindow
      let isSpur := mkIsSpur ref baseline thr
      let processed := pass1Go freq isSpur N N meas 0
      pass2Go freq ref thr N N processed 1

/-!
Helper lemmas and the claim theorems.  `Rat.add`, `Rat.sub`, `Rat.mul` and
`Rat.inv` are `@[irreducible]` in the library; they are made semireducible
here so that `decide` can evaluate the embedded functions on concrete
rational inputs (the kernel itself never respects reducibility attributes,
so this changes nothing about what is proved).
-/

section
attribute [local semireducible] Rat.add Rat.sub Rat.mul Rat.inv

theorem rangeMap_getD {α : Type} (f : ℕ → α) (n i : ℕ) (d : α) (h : i < n) :
    ((List.range n).map f).getD i d = f i := by
  simp [List.getD_eq_getElem?_getD, List.getElem?_range h]

theorem getD_set {α : Type} (l : List α) (i k : ℕ) (v d : α) :
    (l.set i v).getD k d = if i = k ∧ k < l.length then v else l.getD k d := by
  rw [List.getD_eq_getElem?_getD, List.getD_eq_getElem?_getD, List.getElem?_set]
  rcases eq_or_ne i k with rfl | hne
  · rcases Nat.lt_or_ge i l.length with hlt | hge
    · simp [hlt]
    · simp [Nat.not_lt.2 hge, List.getElem?_eq_none hge]
  · simp [hne]

theorem getD_eq_default_of_le {α : Type} (l : List α) (k : ℕ) (d : α)
    (h : l.length ≤ k) : l.getD k d = d := by
  rw [List.getD_eq_getElem?_getD, List.getElem?_eq_none h]
  rfl

/-- C9: `linearInterpolate` returns the left anchor whenever the x-anchors are
closer than machine epsilon (so the division-by-zero branch is never taken:
in the other branch the divisor is provably nonzero), and otherwise computes
`y1 + (y2 - y1) * (x - x1) / (x2 - x1)`; in particular the degenerate call
`linearInterpolate 0 0 0 10 5` returns `0`. -/
theorem linearInterpolate_spec (x1 y1 x2 y2 x : ℚ) :
    (|x2 - x1| < dblEps → linearInterpolate x1 y1 x2 y2 x = y1) ∧
    (¬(|x2 - x1| < dblEps) → x2 - x1 ≠ 0 ∧
      linearInterpolate x1 y1 x2 y2 x = y1 + (y2 - y1) * (x - x1) / (x2 - x1)) ∧
    linearInterpolate 0 0 0 10 5 = 0 := by
  refine ⟨fun h => ?_, fun h => ⟨?_, ?_⟩, by decide⟩
  · rw [linearInterpolate, if_pos h]
  · intro h0
    apply h
    rw [h0, abs_zero]
    norm_num [dblEps]
  · rw [linearInterpolate, if_neg h]

/-- C10: `savitzkyGolay` returns the input unchanged whenever the data is
strictly shorter than the oddified requested window, for every polynomial
order — even when the requested window is ≥ 9 and the snapped 11-point
kernel would fit within the data.  The short-data test compares against the
requested (oddified) window, not the snapped one. -/
theorem savitzkyGolay_short_data_id (data : List ℚ) (w p : ℤ)
    (h : (data.length : ℤ) < oddify w) : savitzkyGolay data w p = data := by
  rw [savitzkyGolay, if_pos (Or.inr (Or.inr h))]

/-- Witness for C10: a 12-sample array with a requested window of 13 (the
snapped kernel has width 11 and would fit) is returned unchanged. -/
theorem savitzkyGolay_short_data_id_witness :
    savitzkyGolay [1, 2, 3, 4, 5, 6, 7, 8, 9, 10, 11, 12] 13 3 =
      [1, 2, 3, 4, 5, 6, 7, 8, 9, 10, 11, 12] :=
  savitzkyGolay_short_data_id _ 13 3 (by decide)

/-- C8: `removeSpurs` is a pass-through for a dataset with no reference
channel or with fewer than 3 samples: the output equals the chosen source
measured array (no error is possible; the function is total). -/
theorem removeSpurs_passthrough (hasRef : Bool) (thr : ℚ) (bw : ℤ)
    (freq ref meas : List ℚ) (h : hasRef = false ∨ ref.length < 3) :
    removeSpurs hasRef thr bw freq ref meas = meas := by
  rcases h with h | h
  · subst h
    rw [removeSpurs, if_pos (Or.inl (by decide))]
  · by_cases hf : ¬hasRef ∨ freq.isEmpty
    · rw [removeSpurs, if_pos hf]
    · rw [removeSpurs, if_neg hf]
      simp only [if_pos h]

/-- Witness for C8: a two-sample dataset with a reference channel present is
passed through unchanged. -/
theorem removeSpurs_passthrough_witness :
    removeSpurs true 5 21 [1, 2] [0, 0] [7, 8] = [7, 8] :=
  removeSpurs_passthrough true 5 21 [1, 2] [0, 0] [7, 8] (Or.inr (by decide))

/-- C7: for each filter kind an even window parameter is made odd by
incrementing it (the filter output is unchanged by replacing an even `w`
with `w + 1`); when the oddified window is below the kind's minimum (3 for
moving average and median, 5 for Savitzky-Golay) or the data is empty, the
filter returns the input unchanged; the embedded filter functions are total,
so no parameter combination raises an error. -/
theorem filters_oddify_and_identity_fallback (data : List ℚ) (w : ℤ) :
    (w % 2 = 0 →
      movingAverage data w = movingAverage data (w + 1) ∧
      medianFilter data w = medianFilter data (w + 1) ∧
      ∀ p : ℤ, savitzkyGolay data w p = savitzkyGolay data (w + 1) p) ∧
    (oddify w < 3 ∨ data = [] →
      movingAverage data w = data ∧ medianFilter data w = data) ∧
    (oddify w < 5 ∨ data = [] → ∀ p : ℤ, savitzkyGolay data w p = data) := by
  have hodd : w % 2 = 0 → oddify w = oddify (w + 1) := by
    intro h
    rw [oddify, oddify, if_pos h, if_neg (by omega)]
  have hem : data = [] → data.isEmpty := fun h => by simp [h]
  refine ⟨fun h => ⟨?_, ?_, fun p => ?_⟩, fun h => ⟨?_, ?_⟩, fun h p => ?_⟩
  · rw [movingAverage, movingAverage, hodd h]
  · rw [medianFilter, medianFilter, hodd h]
  · rw [savitzkyGolay, savitzkyGolay, hodd h]
  · rcases h with h | h
    · by_cases he : data.isEmpty
      · rw [movingAverage, if_pos (Or.inr he)]
      · rw [movingAverage, if_pos (Or.inl h)]
    · rw [movingAverage, if_pos (Or.inr (hem h))]
  · rcases h with h | h
    · by_cases he : data.isEmpty
      · rw [medianFilter, if_pos (Or.inr he)]
      · rw [medianFilter, if_pos (Or.inl h)]
    · rw [medianFilter, if_pos (Or.inr (hem h))]
  · rcases h with h | h
    · rw [savitzkyGolay, if_pos (Or.inl h)]
    · by_cases h5 : oddify w < 5
      · rw [savitzkyGolay, if_pos (Or.inl h5)]
      · rw [savitzkyGolay, if_pos (Or.inr (Or.inr (by rw [h]; simpa using by omega)))]

/-- Witness for C7: concrete instances of each conjunct (even window 4
oddified to 5, window 1 below every minimum, empty data). -/
theorem filters_oddify_and_identity_fallback_witness :
    movingAverage [1, 2, 3] 4 = movingAverage [1, 2, 3] 5 ∧
    medianFilter [1, 2, 3] 4 = medianFilter [1, 2, 3] 5 ∧
    movingAverage [1, 2, 3] 1 = [1, 2, 3] ∧
    medianFilter [1, 2, 3] 1 = [1, 2, 3] ∧
    savitzkyGolay [1, 2, 3] 1 3 = [1, 2, 3] ∧
    movingAverage [] 11 = [] ∧ savitzkyGolay [] 11 3 = [] :=
  ⟨((filters_oddify_and_identity_fallback [1, 2, 3] 4).1 (by decide)).1,
   ((filters_oddify_and_identity_fallback [1, 2, 3] 4).1 (by decide)).2.1,
   ((filters_oddify_and_identity_fallback [1, 2, 3] 1).2.1 (Or.inl (by decide))).1,
   ((filters_oddify_and_identity_fallback [1, 2, 3] 1).2.1 (Or.inl (by decide))).2,
   (filters_oddify_and_identity_fallback [1, 2, 3] 1).2.2 (Or.inl (by decide)) 3,
   ((filters_oddify_and_identity_fallback [] 11).2.1 (Or.inr rfl)).1,
   (filters_oddify_and_identity_fallback [] 11).2.2 (Or.inr rfl) 3⟩

theorem sgSelect_of_ge9 (w : ℤ) (h : 9 ≤ w) : sgSelect w = some (coeffs11, 429, 11) := by
  rcases le_or_lt w 15 with h15 | h15
  · rw [sgSelect, if_neg (by omega), if_neg (by omega), if_pos ⟨h, h15⟩]
  · rw [sgSelect, if_neg (by omega), if_neg (by omega), if_neg (by omega), if_pos h15]

theorem savitzkyGolay_eq_sgApply (data : List ℚ) (w p : ℤ) (csel : List ℚ) (nsel : ℚ)
    (wsel : ℤ) (h5 : 5 ≤ oddify w) (hp : p < oddify w)
    (hlen : oddify w ≤ (data.length : ℤ))
    (hsel : sgSelect (oddify w) = some (csel, nsel, wsel)) :
    savitzkyGolay data w p = sgApply data csel nsel wsel := by
  unfold savitzkyGolay
  rw [if_neg (by push_neg; exact ⟨by omega, hp, hlen⟩), hsel]

theorem sgApply_getD (data coeffs : List ℚ) (norm : ℚ) (w2 : ℤ) (i : ℕ)
    (hi : i < data.length) :
    (sgApply data coeffs norm w2).getD i 0 =
      if i < (w2 / 2).toNat ∨ data.length - (w2 / 2).toNat ≤ i then data.getD i 0
      else sgConv coeffs norm ((w2 / 2).toNat) data i := by
  unfold sgApply
  rw [rangeMap_getD _ _ _ _ hi]
  split
  · rfl
  · rw [rangeMap_getD _ _ _ _ hi]

/-- C3 (amended): for every odd requested window `w ∈ [5, 51]` and every
input array, the first and last `min ⌊w/2⌋ 5` output samples equal the
corresponding input samples.  As stated the claim fails for `w ≥ 13`: the
source computes `halfWindow` from the SNAPPED window (2 for `w = 5`, 3 for
`w = 7`, 5 for every `w ≥ 9`), so the region copied verbatim is
`min ⌊w/2⌋ 5` wide, not `⌊w/2⌋`. -/
theorem savitzkyGolay_boundary (data : List ℚ) (w : ℤ)
    (hodd : w % 2 = 1) (h5 : 5 ≤ w) (h51 : w ≤ 51) :
    ∀ i < data.length,
      (i < min ((w / 2).toNat) 5 ∨ data.length ≤ i + min ((w / 2).toNat) 5) →
      (savitzkyGolay data w 3).getD i 0 = data.getD i 0 := by
  intro i hi hb
  have hw : oddify w = w := by rw [oddify, if_neg (by omega)]
  by_cases hg : (data.length : ℤ) < w
  · rw [show savitzkyGolay data w 3 = data by
      unfold savitzkyGolay; rw [hw, if_pos (Or.inr (Or.inr hg))]]
  · have hlen : oddify w ≤ (data.length : ℤ) := by rw [hw]; omega
    by_cases hw5 : w = 5
    · subst hw5
      rw [savitzkyGolay_eq_sgApply data 5 3 coeffs5 35 5 (by omega) (by rw [hw]; omega)
          hlen (by rw [hw]; rfl)]
      rw [sgApply_getD _ _ _ _ _ hi]
      rw [if_pos (by omega)]
    · by_cases hw7 : w = 7
      · subst hw7
        rw [savitzkyGolay_eq_sgApply data 7 3 coeffs7 21 7 (by omega) (by rw [hw]; omega)
            hlen (by rw [hw]; rfl)]
        rw [sgApply_getD _ _ _ _ _ hi]
        rw [if_pos (by omega)]
      · have h9 : 9 ≤ w := by omega
        rw [savitzkyGolay_eq_sgApply data w 3 coeffs11 429 11 (by omega) (by rw [hw]; omega)
            hlen (by rw [hw]; exact sgSelect_of_ge9 w h9)]
        rw [sgApply_getD _ _ _ _ _ hi]
        rw [if_pos (by omega)]

/-- Counterexample to C3 as stated: for the requested window 13 (odd, in
`[5, 51]`), index 5 lies within the first `⌊13/2⌋ = 6` samples, yet the
output at index 5 differs from the input there (only 5 boundary samples are
copied, because the snapped window is 11). -/
theorem savitzkyGolay_boundary_counterexample :
    (5 : ℕ) < ((13 : ℤ) / 2).toNat ∧
    (savitzkyGolay [0, 0, 0, 0, 0, 429, 0, 0, 0, 0, 0, 0, 0] 13 3).getD 5 0 ≠
      ([0, 0, 0, 0, 0, 429, 0, 0, 0, 0, 0, 0, 0] : List ℚ).getD 5 0 := by
  exact ⟨by decide, by decide⟩

/-- Witness for C3 (amended): window 5 on a 5-sample array, index 1 within
the copied boundary. -/
theorem savitzkyGolay_boundary_witness :
    (savitzkyGolay [1, 2, 3, 4, 5] 5 3).getD 1 0 = ([1, 2, 3, 4, 5] : List ℚ).getD 1 0 :=
  savitzkyGolay_boundary [1, 2, 3, 4, 5] 5 (by decide) (by decide) (by decide) 1
    (by decide) (by decide)

/-- C4 (amended): for every requested window that is ≥ 9 after oddification
(up to 51) and every input array AT LEAST AS LONG AS THE ODDIFIED REQUESTED
WINDOW, each interior output sample (indices 5 to n-6) equals the
convolution with the fixed 11-point kernel over reflected indices; and a
window that is still < 5 after oddification returns the input unchanged.
As stated the claim fails twice: an input shorter than the oddified
requested window is returned unchanged even though the snapped kernel would
fit, and a requested window of 4 oddifies to 5 and is filtered rather than
returned unchanged. -/
theorem savitzkyGolay_interior_kernel (w : ℤ) (data : List ℚ) :
    (9 ≤ oddify w → oddify w ≤ 51 → oddify w ≤ (data.length : ℤ) →
      ∀ i, 5 ≤ i → i + 6 ≤ data.length →
        (savitzkyGolay data w 3).getD i 0 = sgConv coeffs11 429 5 data i) ∧
    (oddify w < 5 → savitzkyGolay data w 3 = data) := by
  constructor
  · intro h9 _h51 hlen i hi5 hi6
    rw [savitzkyGolay_eq_sgApply data w 3 coeffs11 429 11 (by omega) (by omega) hlen
        (sgSelect_of_ge9 _ h9)]
    have hi : i < data.length := by omega
    rw [sgApply_getD _ _ _ _ _ hi]
    rw [if_neg (by omega)]
    rw [show (((11 : ℤ) / 2).toNat) = 5 by decide]
  · intro h
    unfold savitzkyGolay
    rw [if_pos (Or.inl h)]

/-- Counterexample to C4 as stated: a 12-sample array with requested window
13 (≥ 9 after oddification) has interior index 5 in `[5, n-6]`, yet the
output there is the unchanged input sample, not the kernel convolution; and
the requested window 4 (< 5) does not return the input unchanged — it
oddifies to 5 and filters. -/
theorem savitzkyGolay_interior_kernel_counterexample :
    (savitzkyGolay [0, 0, 0, 0, 0, 429, 0, 0, 0, 0, 0, 0] 13 3).getD 5 0 ≠
      sgConv coeffs11 429 5 [0, 0, 0, 0, 0, 429, 0, 0, 0, 0, 0, 0] 5 ∧
    savitzkyGolay [0, 0, 35, 0, 0] 4 3 ≠ [0, 0, 35, 0, 0] := by
  exact ⟨by decide, by decide⟩

/-- Witness for C4 (amended): window 11 on an 11-sample array at interior
index 5, and the identity fallback for requested window 3. -/
theorem savitzkyGolay_interior_kernel_witness :
    (savitzkyGolay [1, 1, 1, 1, 1, 1, 1, 1, 1, 1, 1] 11 3).getD 5 0 =
      sgConv coeffs11 429 5 [1, 1, 1, 1, 1, 1, 1, 1, 1, 1, 1] 5 ∧
    savitzkyGolay [1, 2, 3] 3 3 = [1, 2, 3] :=
  ⟨(savitzkyGolay_interior_kernel 11 [1, 1, 1, 1, 1, 1, 1, 1, 1, 1, 1]).1
      (by decide) (by decide) (by decide) 5 (by decide) (by decide),
   (savitzkyGolay_interior_kernel 3 [1, 2, 3]).2 (by decide)⟩

theorem mkIsSpur_getD_false (ref baseline : List ℚ) (thr : ℚ)
    (h : ∀ i < ref.length, ref.getD i 0 - baseline.getD i 0 ≤ thr) :
    ∀ k, (mkIsSpur ref baseline thr).getD k false = false := by
  intro k
  by_cases hk : k < ref.length
  · unfold mkIsSpur
    rw [rangeMap_getD _ _ _ _ hk]
    exact decide_eq_false (not_lt.2 (h k hk))
  · refine getD_eq_default_of_le _ _ _ ?_
    unfold mkIsSpur
    rw [List.length_map, List.length_range]
    omega

theorem pass1Go_id (freq : List ℚ) (isSpur : List Bool) (N : ℕ)
    (hs : ∀ k, isSpur.getD k false = false) :
    ∀ fuel i meas, pass1Go freq isSpur N fuel meas i = meas := by
  intro fuel
  induction fuel with
  | zero => intro i meas; rfl
  | succ fuel ih =>
    intro i meas
    simp only [pass1Go, hs i, Bool.false_eq_true, if_false]
    by_cases h : i < N
    · rw [if_pos h]
      exact ih (i + 1) meas
    · rw [if_neg h]

theorem pass2Go_id (freq ref : List ℚ) (thr : ℚ) (N : ℕ)
    (h : ∀ k, 1 ≤ k → k < N - 1 → ¬(ref.getD k 0 - ref.getD (k - 1) 0 > thr)) :
    ∀ fuel i meas, 1 ≤ i → pass2Go freq ref thr N fuel meas i = meas := by
  intro fuel
  induction fuel with
  | zero => intro i meas _; rfl
  | succ fuel ih =>
    intro i meas hi
    simp only [pass2Go]
    by_cases hlt : i < N - 1
    · rw [if_pos hlt, if_neg (h i hi hlt)]
      exact ih (i + 1) meas (by omega)
    · rw [if_neg hlt]

theorem findFall_eq_N (ref : List ℚ) (thr : ℚ) (N : ℕ) :
    ∀ fuel j, j + fuel = N →
      (∀ k < N, j ≤ k → ¬(ref.getD (k - 1) 0 - ref.getD k 0 > thr)) →
      findFall ref thr N fuel j = N := by
  intro fuel
  induction fuel with
  | zero =>
    intro j hj _
    simp only [findFall]
    omega
  | succ fuel ih =>
    intro j hj hno
    simp only [findFall]
    rw [if_pos (by omega), if_neg (hno j (by omega) le_rfl)]
    exact ih (j + 1) (by omega) (fun k hk hjk => hno k hk (by omega))

theorem fillConst_getD (v : ℚ) :
    ∀ (cnt k0 : ℕ) (meas : List ℚ) (k : ℕ), k < meas.length →
      (fillConst v cnt k0 meas).getD k 0 =
        if k0 ≤ k ∧ k < k0 + cnt then v else meas.getD k 0 := by
  intro cnt
  induction cnt with
  | zero =>
    intro k0 meas k hk
    rw [if_neg (by omega)]
    rfl
  | succ cnt ih =>
    intro k0 meas k hk
    simp only [fillConst]
    rw [ih (k0 + 1) (meas.set k0 v) k (by rwa [List.length_set])]
    by_cases hin : k0 + 1 ≤ k ∧ k < k0 + 1 + cnt
    · rw [if_pos hin, if_pos (by omega)]
    · rw [if_neg hin, getD_set]
      rcases eq_or_ne k0 k with rfl | hne
      · rw [if_pos ⟨rfl, hk⟩, if_pos (by omega)]
      · rw [if_neg (fun hc => hne hc.1), if_neg (by omega)]

/-- C5: in Pass 2, when a rising edge is detected at index `start`
(`reference[start] - reference[start-1] > thresholdDb`) and no subsequent
falling edge (`reference[j-1] - reference[j] > thresholdDb`) exists before
the end of the array, every output sample from `start` through the last
index is set to the working measured value at `start - 1`, the samples
below `start` are untouched, and the scan terminates (no later rising edge
is processed: the result is exactly this forward fill). -/
theorem pass2_unmatched_rising_edge (freq ref : List ℚ) (thr : ℚ) (N fuel start : ℕ)
    (meas : List ℚ) (h1 : 1 ≤ start) (h2 : start < N - 1)
    (hrise : ref.getD start 0 - ref.getD (start - 1) 0 > thr)
    (hnofall : ∀ j < N, start + 1 ≤ j → ¬(ref.getD (j - 1) 0 - ref.getD j 0 > thr)) :
    ∀ k < meas.length,
      (pass2Go freq ref thr N (fuel + 1) meas start).getD k 0 =
        if start ≤ k ∧ k < N then meas.getD (start - 1) 0 else meas.getD k 0 := by
  intro k hk
  simp only [pass2Go]
  rw [if_pos h2, if_pos hrise]
  rw [findFall_eq_N ref thr N (N - (start + 1)) (start + 1) (by omega)
      (fun k2 hk2 hj2 => hnofall k2 hk2 hj2)]
  rw [if_neg (lt_irrefl N)]
  rw [fillConst_getD _ _ _ _ _ hk]
  rw [show start + (N - start) = N by omega]

/-- Witness for C5: reference `[0, 10, 10, 10]` has a rising edge at index 1
and no falling edge; the measured array `[5, 6, 7, 8]` is forward-filled
from index 1 with the value at index 0. -/
theorem pass2_unmatched_rising_edge_witness :
    (pass2Go [1, 2, 3, 4] [0, 10, 10, 10] 5 4 4 [5, 6, 7, 8] 1).getD 2 0 =
      if 1 ≤ 2 ∧ 2 < 4 then ([5, 6, 7, 8] : List ℚ).getD 0 0
      else ([5, 6, 7, 8] : List ℚ).getD 2 0 :=
  pass2_unmatched_rising_edge [1, 2, 3, 4] [0, 10, 10, 10] 5 4 3 1 [5, 6, 7, 8]
    (by decide) (by decide) (by decide) (by decide) 2 (by decide)

/-- C1 (amended): for every dataset with a reference channel and at least 3
samples, if `reference[i] - baseline[i] ≤ thresholdDb` for every index `i`
(baseline the window-21 rolling median of the reference) AND the reference
has no rising edge (`reference[i] - reference[i-1] ≤ thresholdDb` for every
`i` in `[1, n-2]`), then `removeSpurs` returns the measured array unchanged.
As stated the claim fails: the baseline condition silences Pass 1 but not
Pass 2, whose edge detector can still rewrite the measured array. -/
theorem removeSpurs_noop (freq ref meas : List ℚ) (thr : ℚ)
    (hn : 3 ≤ ref.length)
    (hbase : ∀ i < ref.length,
      ref.getD i 0 - (rollingMedian ref DEFAULT_SPUR_WINDOW_SIZE).getD i 0 ≤ thr)
    (hedge : ∀ i, 1 ≤ i → i < ref.length - 1 → ref.getD i 0 - ref.getD (i - 1) 0 ≤ thr) :
    removeSpurs true thr DEFAULT_SPUR_WINDOW_SIZE freq ref meas = meas := by
  simp only [removeSpurs, not_true, false_or]
  by_cases he : freq.isEmpty
  · rw [if_pos he]
  · rw [if_neg he, if_neg (by omega)]
    rw [pass1Go_id _ _ _ (mkIsSpur_getD_false _ _ _ hbase)]
    exact pass2Go_id _ _ _ _ (fun k h1k hk => not_lt.2 (hedge k h1k hk))
      ref.length 1 meas le_rfl

/-- Witness for C1 (amended): a flat reference channel leaves the measured
array unchanged. -/
theorem removeSpurs_noop_witness :
    removeSpurs true 5 DEFAULT_SPUR_WINDOW_SIZE [1, 2, 3] [0, 0, 0] [-7, -8, -9] =
      [-7, -8, -9] :=
  removeSpurs_noop [1, 2, 3] [0, 0, 0] [-7, -8, -9] 5 (by decide) (by decide) (by decide)

/-- Counterexample to C1 as stated: `reference = [0, 10, 10]` satisfies
`reference[i] - baseline[i] ≤ 5` at every index (its window-21 rolling
median is `[0, 10, 10]`), the dataset has a reference channel and 3
samples, yet `removeSpurs` changes the measured array: Pass 2 sees the
rising edge `10 - 0 > 5` at index 1, finds no falling edge, and
forward-fills the tail with `measured[0]`. -/
theorem removeSpurs_noop_counterexample :
    (∀ i < 3, ([0, 10, 10] : List ℚ).getD i 0 -
      (rollingMedian [0, 10, 10] DEFAULT_SPUR_WINDOW_SIZE).getD i 0 ≤ SPUR_THRESHOLD) ∧
    removeSpurs true SPUR_THRESHOLD DEFAULT_SPUR_WINDOW_SIZE
      [1, 2, 3] [0, 10, 10] [-100, -60, -60] ≠ [-100, -60, -60] := by
  exact ⟨by decide, by decide⟩

/-- C2: for `freq = [1..7]`, `reference = [0,0,0,20,20,0,0]`,
`measured = [-100,-100,-100,-60,-60,-100,-100]`, threshold 5 and baseline
window 21, Pass 1 marks exactly indices 3 and 4 as spurs, picks the
non-spur anchors 2 (left) and 5 (right), and replaces indices 3 and 4 by
linear interpolation between `(freq[2], -100)` and `(freq[5], -100)`,
yielding `-100` at both. -/
theorem pass1_concrete_spur_removal :
    mkIsSpur [0, 0, 0, 20, 20, 0, 0]
        (rollingMedian [0, 0, 0, 20, 20, 0, 0] DEFAULT_SPUR_WINDOW_SIZE) SPUR_THRESHOLD =
      [false, false, false, true, true, false, false] ∧
    findLeft (mkIsSpur [0, 0, 0, 20, 20, 0, 0]
        (rollingMedian [0, 0, 0, 20, 20, 0, 0] DEFAULT_SPUR_WINDOW_SIZE) SPUR_THRESHOLD)
      3 = 2 ∧
    findRight (mkIsSpur [0, 0, 0, 20, 20, 0, 0]
        (rollingMedian [0, 0, 0, 20, 20, 0, 0] DEFAULT_SPUR_WINDOW_SIZE) SPUR_THRESHOLD)
      7 2 5 = 5 ∧
    pass1Go [1, 2, 3, 4, 5, 6, 7]
        (mkIsSpur [0, 0, 0, 20, 20, 0, 0]
          (rollingMedian [0, 0, 0, 20, 20, 0, 0] DEFAULT_SPUR_WINDOW_SIZE) SPUR_THRESHOLD)
        7 7 [-100, -100, -100, -60, -60, -100, -100] 0 =
      [-100, -100, -100,
        linearInterpolate 3 (-100) 6 (-100) 4,
        linearInterpolate 3 (-100) 6 (-100) 5, -100, -100] ∧
    pass1Go [1, 2, 3, 4, 5, 6, 7]
        (mkIsSpur [0, 0, 0, 20, 20, 0, 0]
          (rollingMedian [0, 0, 0, 20, 20, 0, 0] DEFAULT_SPUR_WINDOW_SIZE) SPUR_THRESHOLD)
        7 7 [-100, -100, -100, -60, -60, -100, -100] 0 =
      [-100, -100, -100, -100, -100, -100, -100] := by
  refine ⟨by decide, by decide, by decide, by decide, by decide⟩

end

theorem scanStep_none (t : ℝ) (p : ℝ × ℝ) :
    scanStep t none p = some (logDist p.1 t, p.1, p.2) := rfl

theorem scanStep_some (t m cf cv : ℝ) (p : ℝ × ℝ) :
    scanStep t (some (m, cf, cv)) p =
      if logDist p.1 t < m then some (logDist p.1 t, p.1, p.2) else some (m, cf, cv) := rfl

theorem foldl_scanStep_some (t : ℝ) :
    ∀ (l : List (ℝ × ℝ)) (a : ℝ × ℝ × ℝ),
      ∃ b, l.foldl (scanStep t) (some a) = some b := by
  intro l
  induction l with
  | nil => intro a; exact ⟨a, rfl⟩
  | cons p l ih =>
    intro a
    obtain ⟨m, cf, cv⟩ := a
    rw [List.foldl_cons, scanStep_some]
    by_cases hd : logDist p.1 t < m
    · rw [if_pos hd]; exact ih _
    · rw [if_neg hd]; exact ih _

theorem foldl_scanStep_some_iff (t : ℝ) :
    ∀ (l : List (ℝ × ℝ)) (m0 f0 v0 m f v : ℝ),
      l.foldl (scanStep t) (some (m0, f0, v0)) = some (m, f, v) ↔
        ((m = m0 ∧ f = f0 ∧ v = v0) ∧ ∀ p ∈ l, m0 ≤ logDist p.1 t) ∨
        (∃ pre post, l = pre ++ (f, v) :: post ∧ m = logDist f t ∧ m < m0 ∧
          (∀ p ∈ pre, m < logDist p.1 t) ∧ (∀ p ∈ post, m ≤ logDist p.1 t)) := by
  intro l
  induction l with
  | nil =>
    intro m0 f0 v0 m f v
    simp only [List.foldl_nil, Option.some.injEq, Prod.mk.injEq, List.not_mem_nil,
      false_implies, implies_true, and_true]
    constructor
    · rintro ⟨rfl, rfl, rfl⟩
      exact Or.inl ⟨rfl, rfl, rfl⟩
    · rintro (⟨rfl, rfl, rfl⟩ | ⟨pre, post, hdec, -⟩)
      · exact ⟨rfl, rfl, rfl⟩
      · exact absurd hdec (by simp)
  | cons p l ih =>
    intro m0 f0 v0 m f v
    rw [List.foldl_cons, scanStep_some]
    by_cases hd : logDist p.1 t < m0
    · rw [if_pos hd, ih]
      constructor
      · rintro (⟨⟨rfl, rfl, rfl⟩, hall⟩ | ⟨pre, post, rfl, hm, hlt, hpre, hpost⟩)
        · exact Or.inr ⟨[], l, by simp, rfl, hd, by simp, hall⟩
        · refine Or.inr ⟨p :: pre, post, rfl, hm, lt_trans hlt hd, ?_, hpost⟩
          intro q hq
          rcases List.mem_cons.1 hq with rfl | hq'
          · exact hlt
          · exact hpre q hq'
      · rintro (⟨⟨rfl, rfl, rfl⟩, hall⟩ | ⟨pre, post, hdec, hm, hltm0, hpre, hpost⟩)
        · exact absurd (hall p (List.mem_cons_self p l)) (not_le.2 hd)
        · cases pre with
          | nil =>
            rw [List.nil_append] at hdec
            obtain ⟨pf, pv⟩ := p
            injection hdec with h1 h2
            subst h2
            rw [Prod.mk.injEq] at h1
            obtain ⟨rfl, rfl⟩ := h1
            subst hm
            exact Or.inl ⟨⟨rfl, rfl, rfl⟩, hpost⟩
          | cons p' pre' =>
            rw [List.cons_append] at hdec
            injection hdec with h1 h2
            subst h1
            subst h2
            refine Or.inr ⟨pre', post, rfl, hm, hpre p (List.mem_cons_self p pre'), ?_, hpost⟩
            exact fun q hq => hpre q (List.mem_cons_of_mem p hq)
    · rw [if_neg hd, ih]
      have hle : m0 ≤ logDist p.1 t := not_lt.1 hd
      constructor
      · rintro (⟨⟨rfl, rfl, rfl⟩, hall⟩ | ⟨pre, post, rfl, hm, hlt, hpre, hpost⟩)
        · refine Or.inl ⟨⟨rfl, rfl, rfl⟩, ?_⟩
          intro q hq
          rcases List.mem_cons.1 hq with rfl | hq'
          · exact hle
          · exact hall q hq'
        · refine Or.inr ⟨p :: pre, post, rfl, hm, hlt, ?_, hpost⟩
          intro q hq
          rcases List.mem_cons.1 hq with rfl | hq'
          · exact lt_of_lt_of_le hlt hle
          · exact hpre q hq'
      · rintro (⟨⟨rfl, rfl, rfl⟩, hall⟩ | ⟨pre, post, hdec, hm, hltm0, hpre, hpost⟩)
        · exact Or.inl ⟨⟨rfl, rfl, rfl⟩, fun q hq => hall q (List.mem_cons_of_mem p hq)⟩
        · cases pre with
          | nil =>
            rw [List.nil_append] at hdec
            obtain ⟨pf, pv⟩ := p
            injection hdec with h1 h2
            rw [Prod.mk.injEq] at h1
            obtain ⟨rfl, rfl⟩ := h1
            exact absurd (hm ▸ hltm0) hd
          | cons p' pre' =>
            rw [List.cons_append] at hdec
            injection hdec with h1 h2
            subst h1
            subst h2
            refine Or.inr ⟨pre', post, rfl, hm, hltm0, ?_, hpost⟩
            exact fun q hq => hpre q (List.mem_cons_of_mem p hq)

theorem scanClosest_eq_some_iff (t : ℝ) (curve : List (ℝ × ℝ)) (m f v : ℝ) :
    scanClosest t curve = some (m, f, v) ↔
      ∃ pre post, curve = pre ++ (f, v) :: post ∧ m = logDist f t ∧
        (∀ p ∈ pre, m < logDist p.1 t) ∧ (∀ p ∈ post, m ≤ logDist p.1 t) := by
  cases curve with
  | nil =>
    constructor
    · intro h
      exact absurd h (by simp [scanClosest])
    · rintro ⟨pre, post, hdec, -⟩
      exact absurd hdec (by simp)
  | cons p l =>
    rw [scanClosest, List.foldl_cons, scanStep_none, foldl_scanStep_some_iff]
    constructor
    · rintro (⟨⟨rfl, rfl, rfl⟩, hall⟩ | ⟨pre, post, rfl, hm, hlt, hpre, hpost⟩)
      · exact ⟨[], l, by simp, rfl, by simp, hall⟩
      · refine ⟨p :: pre, post, rfl, hm, ?_, hpost⟩
        intro q hq
        rcases List.mem_cons.1 hq with rfl | hq'
        · exact hlt
        · exact hpre q hq'
    · rintro ⟨pre, post, hdec, hm, hpre, hpost⟩
      cases pre with
      | nil =>
        rw [List.nil_append] at hdec
        obtain ⟨pf, pv⟩ := p
        injection hdec with h1 h2
        subst h2
        rw [Prod.mk.injEq] at h1
        obtain ⟨rfl, rfl⟩ := h1
        subst hm
        exact Or.inl ⟨⟨rfl, rfl, rfl⟩, hpost⟩
      | cons p' pre' =>
        rw [List.cons_append] at hdec
        injection hdec with h1 h2
        subst h1
        subst h2
        refine Or.inr ⟨pre', post, rfl, hm, hpre p (List.mem_cons_self p pre'), ?_, hpost⟩
        exact fun q hq => hpre q (List.mem_cons_of_mem p hq)

theorem spotNoisePoint_eq_some_iff (curve : List (ℝ × ℝ)) (xMin xMax t f v : ℝ) :
    spotNoisePoint curve xMin xMax t = some (f, v) ↔
      xMin ≤ t ∧ t ≤ xMax ∧ logDist f t < Real.log 5 ∧
      ∃ pre post, curve = pre ++ (f, v) :: post ∧
        (∀ p ∈ pre, logDist f t < logDist p.1 t) ∧
        (∀ p ∈ post, logDist f t ≤ logDist p.1 t) := by
  unfold spotNoisePoint
  by_cases hr : t < xMin ∨ t > xMax
  · rw [if_pos hr]
    constructor
    · intro h
      exact absurd h (by simp)
    · rintro ⟨h1, h2, -⟩
      exact absurd hr (not_or.2 ⟨not_lt.2 h1, not_lt.2 h2⟩)
  · rw [if_neg hr]
    push_neg at hr
    cases hsc : scanClosest t curve with
    | none =>
      have hcurve : curve = [] := by
        cases curve with
        | nil => rfl
        | cons p l =>
          exfalso
          rw [scanClosest, List.foldl_cons, scanStep_none] at hsc
          obtain ⟨b, hb⟩ := foldl_scanStep_some t l (logDist p.1 t, p.1, p.2)
          rw [hb] at hsc
          exact Option.noConfusion hsc
      subst hcurve
      show (none : Option (ℝ × ℝ)) = some (f, v) ↔ _
      constructor
      · intro h
        exact Option.noConfusion h
      · rintro ⟨-, -, -, pre, post, hdec, -⟩
        exact absurd hdec (by simp)
    | some mfv =>
      obtain ⟨m, cf, cv⟩ := mfv
      show (if logDist cf t < Real.log 5 then some (cf, cv) else none) = some (f, v) ↔ _
      constructor
      · intro h
        by_cases hlt : logDist cf t < Real.log 5
        · rw [if_pos hlt] at h
          injection h with h'
          rw [Prod.mk.injEq] at h'
          obtain ⟨rfl, rfl⟩ := h'
          obtain ⟨pre, post, hdec, hm, hpre, hpost⟩ :=
            (scanClosest_eq_some_iff t curve m cf cv).1 hsc
          subst hm
          exact ⟨hr.1, hr.2, hlt, pre, post, hdec, hpre, hpost⟩
        · rw [if_neg hlt] at h
          exact absurd h (by simp)
      · rintro ⟨-, -, h3, pre, post, hdec, hpre, hpost⟩
        have h' : scanClosest t curve = some (logDist f t, f, v) :=
          (scanClosest_eq_some_iff t curve (logDist f t) f v).2
            ⟨pre, post, hdec, rfl, hpre, hpost⟩
        rw [hsc] at h'
        injection h' with h''
        rw [Prod.mk.injEq, Prod.mk.injEq] at h''
        obtain ⟨hm, rfl, rfl⟩ := h''
        rw [if_pos (hm ▸ h3)]

theorem calculateSpotNoise_mem_iff (curve : List (ℝ × ℝ)) (xMin xMax t f v : ℝ) :
    (t, f, v) ∈ calculateSpotNoise curve xMin xMax ↔
      t ∈ FREQ_POINTS ∧ xMin ≤ t ∧ t ≤ xMax ∧ logDist f t < Real.log 5 ∧
      ∃ pre post, curve = pre ++ (f, v) :: post ∧
        (∀ p ∈ pre, logDist f t < logDist p.1 t) ∧
        (∀ p ∈ post, logDist f t ≤ logDist p.1 t) := by
  unfold calculateSpotNoise
  rw [List.mem_filterMap]
  constructor
  · rintro ⟨a, ha, hmap⟩
    rw [Option.map_eq_some'] at hmap
    obtain ⟨pr, hspot, heq⟩ := hmap
    rw [Prod.mk.injEq] at heq
    obtain ⟨rfl, rfl⟩ := heq
    obtain ⟨h1, h2, h3, hrest⟩ := (spotNoisePoint_eq_some_iff curve xMin xMax a f v).1 hspot
    exact ⟨ha, h1, h2, h3, hrest⟩
  · rintro ⟨hmem, h1, h2, h3, pre, post, hdec, hpre, hpost⟩
    refine ⟨t, hmem, ?_⟩
    rw [Option.map_eq_some']
    exact ⟨(f, v),
      (spotNoisePoint_eq_some_iff curve xMin xMax t f v).2
        ⟨h1, h2, h3, pre, post, hdec, hpre, hpost⟩, rfl⟩

/-- C6: for each decade target `t` of `FREQ_POINTS` lying in the visible
range `[xMin, xMax]`, `calculateSpotNoise` reports exactly the sample
minimising the logarithmic distance `|ln(sampleFreq) - ln(t)|` — the first
encountered sample winning ties (every earlier sample is strictly farther,
every later one at least as far) — and includes the target if and only if
that minimal distance is below `ln 5`; in particular a curve with the single
sample `(1000, -120)` and visible range `[1, 1e6]` yields the 1 kHz target
mapped to `(1000, -120)`. -/
theorem calculateSpotNoise_spec :
    (∀ (curve : List (ℝ × ℝ)) (xMin xMax t f v : ℝ),
      (t, f, v) ∈ calculateSpotNoise curve xMin xMax ↔
        t ∈ FREQ_POINTS ∧ xMin ≤ t ∧ t ≤ xMax ∧ logDist f t < Real.log 5 ∧
        ∃ pre post, curve = pre ++ (f, v) :: post ∧
          (∀ p ∈ pre, logDist f t < logDist p.1 t) ∧
          (∀ p ∈ post, logDist f t ≤ logDist p.1 t)) ∧
    (1000, 1000, -120) ∈ calculateSpotNoise [(1000, -120)] 1 1000000 := by
  refine ⟨calculateSpotNoise_mem_iff, ?_⟩
  rw [calculateSpotNoise_mem_iff]
  refine ⟨by norm_num [FREQ_POINTS], by norm_num, by norm_num, ?_,
    [], [], rfl, by simp, by simp⟩
  rw [logDist, sub_self, abs_zero]
  exact Real.log_pos (by norm_num)

end PNA
